import Mathlib

/-!
Verification of the range-normalization and error-classification core of the
repository: `BytesContentRange` (src/raw/http_util/bytes_content_range.rs) and
the GCS / OBS response classifiers (src/services/gcs/error.rs,
src/services/obs/error.rs), shallowly embedded in Lean.

Rust `u64` values are modelled as `Nat` with explicit wrap-around modulo 2^64
where the source performs `u64` arithmetic (release-mode wrapping semantics).
Rust strings handed to the header parser are modelled as `List Char`; HTTP
bodies as `List Nat` (bytes).
-/

namespace Opendal

/-- Wrap-around `u64` addition: models Rust release-mode `a + b` on `u64`. -/
def u64add (a b : Nat) : Nat := (a + b) % 2 ^ 64

/-- Wrap-around `u64` subtraction: models Rust release-mode `a - b` on `u64`
for operands below 2^64. -/
def u64sub (a b : Nat) : Nat := (a + 2 ^ 64 - b) % 2 ^ 64

/-- Modelled from the spec: `ByteRange` (§3) — the caller-requested range type
`BytesRange` of `src/raw/bytes_range.rs`, which is not included under `src/`.
Both fields optional; `offset`/`size` mirror the accessors used by
`from_bytes_range`. -/
structure BytesRange where
  offset : Option Nat
  size : Option Nat
  deriving DecidableEq, Repr

/-- Embeds the tuple struct `BytesContentRange(Option<u64>, Option<u64>, Option<u64>)`:
field 0 is the range start, field 1 the inclusive range end, field 2 the total
size; `none` means unknown. -/
structure BytesContentRange where
  start : Option Nat
  endPos : Option Nat
  totalSize : Option Nat
  deriving DecidableEq, Repr

/-- Embeds `BytesContentRange::default()`: all three fields unknown. -/
def BytesContentRange.default : BytesContentRange := ⟨none, none, none⟩

/-- Embeds `BytesContentRange::with_range(start, end)`. -/
def BytesContentRange.with_range (x : BytesContentRange) (s e : Nat) : BytesContentRange :=
  { x with start := some s, endPos := some e }

/-- Embeds `BytesContentRange::with_size(size)`. -/
def BytesContentRange.with_size (x : BytesContentRange) (n : Nat) : BytesContentRange :=
  { x with totalSize := some n }

/-- Embeds `BytesContentRange::len()`: `Some(end - start + 1)` in `u64`
arithmetic when both ends are known, else `None`. -/
def BytesContentRange.len (x : BytesContentRange) : Option Nat :=
  match x.start, x.endPos with
  | some s, some e => some (u64add (u64sub e s) 1)
  | _, _ => none

/-- Embeds `BytesContentRange::size()`. -/
def BytesContentRange.size (x : BytesContentRange) : Option Nat := x.totalSize

/-- Embeds `BytesContentRange::from_bytes_range(total_size, range)`: the
four-case match on `(range.offset(), range.size())`, with the source's `u64`
arithmetic rendered as wrap-around operations. -/
def BytesContentRange.from_bytes_range (total_size : Nat) (range : BytesRange) :
    BytesContentRange :=
  match range.offset, range.size with
  | some o, some s => ⟨some o, some (u64sub (u64add o s) 1), some total_size⟩
  | some o, none => ⟨some o, some (u64sub total_size 1), some total_size⟩
  | none, some s => ⟨some (u64sub total_size s), some (u64sub total_size 1), some total_size⟩
  | none, none => ⟨some 0, some (u64sub total_size 1), some total_size⟩

/-- Embeds `BytesContentRange::to_bytes_range()`. The outer `Option` models
termination mode: `some r` is a normal return of `r`, `none` models the
`unreachable!` panic arm. The conversion `BytesRange::from(start..=end)` is
not under `src/` and is modelled from the spec (§4.1: "returns the equivalent
closed ByteRange"), i.e. offset = start, size = end - start + 1 in `u64`
arithmetic. -/
def BytesContentRange.to_bytes_range (x : BytesContentRange) : Option (Option BytesRange) :=
  match x.start, x.endPos, x.totalSize with
  | some s, some e, _ => some (some ⟨some s, some (u64add (u64sub e s) 1)⟩)
  | none, none, some _ => some none
  | _, _, _ => none

/-! ## The unified error value

The crate's `Error` type (`src/error.rs`) is not under `src/`; it is modelled
from the spec's `ErrorRecord` (§3): kind, message, context as an ordered
key/value list, an orthogonal retryable flag, and an optional source. The
builder methods mirror the calls the files under `src/` make:
`Error::new`, `with_operation`, `with_context`, `set_source`, `set_temporary`
(which is what marks an error retryable). -/

/-- Modelled from the spec: the closed `ErrorKind` set relevant to this core
(§3). -/
inductive ErrorKind where
  | ObjectNotFound
  | ObjectPermissionDenied
  | Unexpected
  deriving DecidableEq, Repr

/-- Modelled from the spec: `ErrorRecord` (§3). -/
structure ErrorRecord where
  kind : ErrorKind
  message : String
  operation : Option String
  context : List (String × String)
  retryable : Bool
  source : Option String
  deriving DecidableEq, Repr

/-- Models `Error::new(kind, message)`: fresh error, no context, not
retryable. -/
def ErrorRecord.new (kind : ErrorKind) (message : String) : ErrorRecord :=
  ⟨kind, message, none, [], false, none⟩

/-- Models `Error::with_operation`. -/
def ErrorRecord.with_operation (e : ErrorRecord) (op : String) : ErrorRecord :=
  { e with operation := some op }

/-- Models `Error::with_context(key, value)`: appends one key/value pair. -/
def ErrorRecord.with_context (e : ErrorRecord) (k v : String) : ErrorRecord :=
  { e with context := e.context ++ [(k, v)] }

/-- Models `Error::set_source`. -/
def ErrorRecord.set_source (e : ErrorRecord) (s : String) : ErrorRecord :=
  { e with source := some s }

/-- Models `Error::set_temporary`: marks the error retryable. -/
def ErrorRecord.set_temporary (e : ErrorRecord) : ErrorRecord :=
  { e with retryable := true }

@[simp] theorem ErrorRecord.new_kind (k : ErrorKind) (m : String) :
    (ErrorRecord.new k m).kind = k := rfl

@[simp] theorem ErrorRecord.new_message (k : ErrorKind) (m : String) :
    (ErrorRecord.new k m).message = m := rfl

@[simp] theorem ErrorRecord.new_retryable (k : ErrorKind) (m : String) :
    (ErrorRecord.new k m).retryable = false := rfl

@[simp] theorem ErrorRecord.new_context (k : ErrorKind) (m : String) :
    (ErrorRecord.new k m).context = [] := rfl

@[simp] theorem ErrorRecord.with_operation_kind (e : ErrorRecord) (op : String) :
    (e.with_operation op).kind = e.kind := rfl

@[simp] theorem ErrorRecord.with_operation_message (e : ErrorRecord) (op : String) :
    (e.with_operation op).message = e.message := rfl

@[simp] theorem ErrorRecord.with_operation_retryable (e : ErrorRecord) (op : String) :
    (e.with_operation op).retryable = e.retryable := rfl

@[simp] theorem ErrorRecord.with_operation_context (e : ErrorRecord) (op : String) :
    (e.with_operation op).context = e.context := rfl

@[simp] theorem ErrorRecord.with_context_kind (e : ErrorRecord) (k v : String) :
    (e.with_context k v).kind = e.kind := rfl

@[simp] theorem ErrorRecord.with_context_message (e : ErrorRecord) (k v : String) :
    (e.with_context k v).message = e.message := rfl

@[simp] theorem ErrorRecord.with_context_retryable (e : ErrorRecord) (k v : String) :
    (e.with_context k v).retryable = e.retryable := rfl

@[simp] theorem ErrorRecord.with_context_context (e : ErrorRecord) (k v : String) :
    (e.with_context k v).context = e.context ++ [(k, v)] := rfl

@[simp] theorem ErrorRecord.set_source_kind (e : ErrorRecord) (s : String) :
    (e.set_source s).kind = e.kind := rfl

@[simp] theorem ErrorRecord.set_source_message (e : ErrorRecord) (s : String) :
    (e.set_source s).message = e.message := rfl

@[simp] theorem ErrorRecord.set_source_retryable (e : ErrorRecord) (s : String) :
    (e.set_source s).retryable = e.retryable := rfl

@[simp] theorem ErrorRecord.set_source_context (e : ErrorRecord) (s : String) :
    (e.set_source s).context = e.context := rfl

@[simp] theorem ErrorRecord.set_temporary_kind (e : ErrorRecord) :
    e.set_temporary.kind = e.kind := rfl

@[simp] theorem ErrorRecord.set_temporary_message (e : ErrorRecord) :
    e.set_temporary.message = e.message := rfl

@[simp] theorem ErrorRecord.set_temporary_retryable (e : ErrorRecord) :
    e.set_temporary.retryable = true := rfl

@[simp] theorem ErrorRecord.set_temporary_context (e : ErrorRecord) :
    e.set_temporary.context = e.context := rfl

/-! ## String helpers used by the Content-Range parser

The parser works over `List Char` (the characters of the Rust `&str`). -/

/-- Models `str::strip_prefix`: `some rest` when the pattern is a prefix of
the string, `none` otherwise. -/
def stripPre : List Char → List Char → Option (List Char)
  | [], s => some s
  | _ :: _, [] => none
  | p :: ps, c :: cs => if c = p then stripPre ps cs else none

/-- Models `str::split(sep).collect::<Vec<_>>()`: the list of separated
segments, never empty, with `split` of the empty string giving `[[]]`. -/
def splitList (sep : Char) : List Char → List (List Char)
  | [] => [[]]
  | c :: rest =>
    let r := splitList sep rest
    if c = sep then [] :: r else (c :: r.headD []) :: r.tail

/-- One step of `u64::from_str`'s digit loop: checked multiply-add over the
digits, `none` on a non-digit character or on `u64` overflow. -/
def parseDigits : List Char → Nat → Option Nat
  | [], acc => some acc
  | c :: rest, acc =>
    if c.isDigit then
      if acc * 10 + (c.toNat - 48) < 2 ^ 64 then
        parseDigits rest (acc * 10 + (c.toNat - 48))
      else none
    else none

/-- Models `str::parse::<u64>()` (`u64::from_str`): an optional leading `+`
sign followed by at least one decimal digit, rejecting overflow past
`u64::MAX`; `none` models the `ParseIntError` case. -/
def parseU64 : List Char → Option Nat
  | [] => none
  | c :: rest =>
    if c = '+' then
      match rest with
      | [] => none
      | l => parseDigits l 0
    else parseDigits (c :: rest) 0

/-- Numeric value of a digit string, accumulator form (specification-side
companion of `parseDigits`, no overflow check). -/
def digitsVal : List Char → Nat → Nat
  | [], acc => acc
  | c :: rest, acc => digitsVal rest (acc * 10 + (c.toNat - 48))

/-- The decimal digit character for `d < 10`. -/
def digitChar (d : Nat) : Char := Char.ofNat (48 + d)

/-- Decimal rendering of a natural number, most significant digit first. -/
def natDigits (n : Nat) : List Char :=
  if _h : n < 10 then [digitChar n]
  else natDigits (n / 10) ++ [digitChar (n % 10)]
decreasing_by exact Nat.div_lt_self (by omega) (by norm_num)

/-- The literal `"bytes "` prefix of a Content-Range value. -/
def bytesLit : List Char := ['b', 'y', 't', 'e', 's', ' ']

/-- The literal `"*/"` introducing a size-only Content-Range value. -/
def starSlash : List Char := ['*', '/']

/-- The error every malformed-header branch of `from_str` builds:
`Error::new(Unexpected, "header content range is invalid")` with the
operation name and the original input under context key `"value"`. -/
def contentRangeInvalid (value : List Char) : ErrorRecord :=
  ((ErrorRecord.new .Unexpected "header content range is invalid").with_operation
    "BytesContentRange::from_str").with_context "value" (String.mk value)

/-- The `parse_int_error` closure of `from_str`: the same error with the
`ParseIntError` attached as source. -/
def contentRangeParseIntError (value : List Char) : ErrorRecord :=
  (contentRangeInvalid value).set_source "ParseIntError"

/-- Embeds `impl FromStr for BytesContentRange` (`from_str`): strip the
`"bytes "` prefix, handle the `"*/SIZE"` form, otherwise split on `/` and `-`
into exactly two parts each, parse the numbers, and read the size unless it
is the literal `*`. -/
def from_str (value : List Char) : Except ErrorRecord BytesContentRange :=
  match stripPre bytesLit value with
  | none => .error (contentRangeInvalid value)
  | some s =>
    match stripPre starSlash s with
    | some sizeStr =>
      match parseU64 sizeStr with
      | none => .error (contentRangeParseIntError value)
      | some n => .ok (BytesContentRange.default.with_size n)
    | none =>
      match splitList '/' s with
      | [p0, p1] =>
        match splitList '-' p0 with
        | [v0, v1] =>
          match parseU64 v0 with
          | none => .error (contentRangeParseIntError value)
          | some st =>
            match parseU64 v1 with
            | none => .error (contentRangeParseIntError value)
            | some e =>
              if p1 = ['*'] then .ok (BytesContentRange.default.with_range st e)
              else
                match parseU64 p1 with
                | none => .error (contentRangeParseIntError value)
                | some sz => .ok ((BytesContentRange.default.with_range st e).with_size sz)
        | _ => .error (contentRangeInvalid value)
      | _ => .error (contentRangeInvalid value)

/-- Modelled from the spec: rendering a `BytesContentRange` as a
Content-Range string per the §4.1 grammar
`"bytes " ("*" "/" SIZE | START "-" END "/" (SIZE | "*"))`; the repository's
rendering code is not under `src/`. -/
def render (x : BytesContentRange) : List Char :=
  bytesLit ++
    match x.start, x.endPos with
    | some s, some e =>
      natDigits s ++ ('-' :: (natDigits e ++ ('/' ::
        (match x.totalSize with
         | some t => natDigits t
         | none => ['*']))))
    | _, _ =>
      '*' :: '/' ::
        (match x.totalSize with
         | some t => natDigits t
         | none => [])

/-! ## The GCS and OBS response classifiers

`parse_error` of both services reads the body bytes, maps the status to a
`(kind, retryable)` pair, builds the message from the structured decoder with
a lossy-UTF-8 fallback, attaches the debug rendering of the response parts
under context key `"response"`, and marks retryable errors temporary.

The external collaborators — the serde/quick-xml structured decoder composed
with its debug formatting, the `String::from_utf8_lossy` decoder, and the
debug rendering of the response parts — are standard-library or third-party
code outside this repository and enter as explicit function/value
parameters. -/

/-- Embeds `parse_error` of `src/services/gcs/error.rs`. `decode` stands for
deserializing the body as the GCS JSON error schema and debug-formatting the
result; `lossy` for `String::from_utf8_lossy`; `respDebug` for the debug
rendering of the response parts. -/
def gcs_parse_error (decode : List Nat → Option String) (lossy : List Nat → String)
    (respDebug : String) (status : Nat) (body : List Nat) : ErrorRecord :=
  let kr : ErrorKind × Bool :=
    if status = 404 then (.ObjectNotFound, false)
    else if status = 403 then (.ObjectPermissionDenied, false)
    else if status = 500 ∨ status = 502 ∨ status = 503 ∨ status = 504 then (.Unexpected, true)
    else (.Unexpected, false)
  let message : String :=
    match decode body with
    | some s => s
    | none => lossy body
  let err := (ErrorRecord.new kr.1 message).with_context "response" respDebug
  if kr.2 then err.set_temporary else err

/-- Embeds `parse_error` of `src/services/obs/error.rs`: same shape as the
GCS classifier with the OBS XML schema decoder and the extra
`520 Origin Error` retryable arm. -/
def obs_parse_error (decode : List Nat → Option String) (lossy : List Nat → String)
    (respDebug : String) (status : Nat) (body : List Nat) : ErrorRecord :=
  let kr : ErrorKind × Bool :=
    if status = 404 then (.ObjectNotFound, false)
    else if status = 403 then (.ObjectPermissionDenied, false)
    else if status = 500 ∨ status = 502 ∨ status = 503 ∨ status = 504 then (.Unexpected, true)
    else if status = 520 then (.Unexpected, true)
    else (.Unexpected, false)
  let message : String :=
    match decode body with
    | some s => s
    | none => lossy body
  let err := (ErrorRecord.new kr.1 message).with_context "response" respDebug
  if kr.2 then err.set_temporary else err

/-! ## Helper lemmas about the string primitives -/

theorem stripPre_append (p r : List Char) : stripPre p (p ++ r) = some r := by
  induction p with
  | nil => rfl
  | cons c ps ih => simp [stripPre, ih]

theorem stripPre_cons_ne (p c : Char) (ps cs : List Char) (h : c ≠ p) :
    stripPre (p :: ps) (c :: cs) = none := by
  simp [stripPre, h]

theorem splitList_not_mem (sep : Char) (l : List Char) (h : sep ∉ l) :
    splitList sep l = [l] := by
  induction l with
  | nil => rfl
  | cons c rest ih =>
    have hc : ¬c = sep := by rintro rfl; exact h (List.mem_cons_self _ _)
    have hr : sep ∉ rest := fun hm => h (List.mem_cons_of_mem _ hm)
    simp [splitList, hc, ih hr]

theorem splitList_append (sep : Char) (a b : List Char) (h : sep ∉ a) :
    splitList sep (a ++ sep :: b) = a :: splitList sep b := by
  induction a with
  | nil => simp [splitList]
  | cons c a ih =>
    have hc : ¬c = sep := by rintro rfl; exact h (List.mem_cons_self _ _)
    have ha : sep ∉ a := fun hm => h (List.mem_cons_of_mem _ hm)
    simp [splitList, hc, ih ha]

theorem digitChar_isDigit (d : Nat) (h : d < 10) : (digitChar d).isDigit = true := by
  interval_cases d <;> decide

theorem digitChar_toNat (d : Nat) (h : d < 10) : (digitChar d).toNat = 48 + d := by
  interval_cases d <;> decide

theorem digitsVal_ge (ds : List Char) (acc : Nat) : acc ≤ digitsVal ds acc := by
  induction ds generalizing acc with
  | nil => simp [digitsVal]
  | cons c rest ih =>
    calc acc ≤ acc * 10 + (c.toNat - 48) := by omega
    _ ≤ digitsVal rest (acc * 10 + (c.toNat - 48)) := ih _

theorem digitsVal_append (a b : List Char) (acc : Nat) :
    digitsVal (a ++ b) acc = digitsVal b (digitsVal a acc) := by
  induction a generalizing acc with
  | nil => rfl
  | cons c rest ih => simp [digitsVal, ih]

theorem parseDigits_sound (ds : List Char) (acc : Nat) (hd : ∀ c ∈ ds, c.isDigit)
    (hlt : digitsVal ds acc < 2 ^ 64) : parseDigits ds acc = some (digitsVal ds acc) := by
  induction ds generalizing acc with
  | nil => rfl
  | cons c rest ih =>
    have hc : c.isDigit := hd c (List.mem_cons_self _ _)
    have hv : digitsVal (c :: rest) acc = digitsVal rest (acc * 10 + (c.toNat - 48)) := rfl
    rw [hv] at hlt ⊢
    have hmid : acc * 10 + (c.toNat - 48) < 2 ^ 64 :=
      Nat.lt_of_le_of_lt (digitsVal_ge rest _) hlt
    simp only [parseDigits, hc, if_true, hmid]
    exact ih _ (fun c h => hd c (List.mem_cons_of_mem _ h)) hlt

theorem isDigit_not_special (c : Char) (h : c.isDigit = true) :
    c ≠ '*' ∧ c ≠ '/' ∧ c ≠ '-' ∧ c ≠ '+' := by
  refine ⟨?_, ?_, ?_, ?_⟩ <;> (rintro rfl; revert h; decide)

theorem not_mem_of_digits (ds : List Char) (h : ∀ c ∈ ds, c.isDigit) (x : Char)
    (hx : ¬x.isDigit = true) : x ∉ ds := fun hm => hx (h x hm)

theorem parseU64_digits (ds : List Char) (h0 : ds ≠ []) (h1 : ∀ c ∈ ds, c.isDigit)
    (h2 : digitsVal ds 0 < 2 ^ 64) : parseU64 ds = some (digitsVal ds 0) := by
  cases ds with
  | nil => exact absurd rfl h0
  | cons c rest =>
    have hc : c.isDigit := h1 c (List.mem_cons_self _ _)
    have hne : ¬c = '+' := (isDigit_not_special c hc).2.2.2
    simp only [parseU64, hne, if_false]
    exact parseDigits_sound _ _ h1 h2

theorem natDigits_spec (n : Nat) :
    ∀ acc, digitsVal (natDigits n) acc = acc * 10 ^ (natDigits n).length + n := by
  induction n using Nat.strong_induction_on with
  | _ n ih =>
    intro acc
    rw [natDigits]
    split
    · next h =>
      simp [digitsVal, digitChar_toNat n h]
    · next h =>
      have hlt : n / 10 < n := Nat.div_lt_self (by omega) (by norm_num)
      rw [digitsVal_append, ih (n / 10) hlt]
      have hm : digitsVal [digitChar (n % 10)] (acc * 10 ^ (natDigits (n / 10)).length + n / 10)
          = (acc * 10 ^ (natDigits (n / 10)).length + n / 10) * 10 + n % 10 := by
        simp [digitsVal, digitChar_toNat (n % 10) (Nat.mod_lt _ (by norm_num))]
      rw [hm]
      have hlen : ((natDigits (n / 10)) ++ [digitChar (n % 10)]).length
          = (natDigits (n / 10)).length + 1 := by simp
      rw [hlen, pow_succ, ← Nat.mul_assoc]
      have := Nat.div_add_mod n 10
      generalize acc * 10 ^ (natDigits (n / 10)).length = M
      omega

theorem natDigits_val (n : Nat) : digitsVal (natDigits n) 0 = n := by
  simpa using natDigits_spec n 0

theorem natDigits_digits (n : Nat) : ∀ c ∈ natDigits n, c.isDigit := by
  induction n using Nat.strong_induction_on with
  | _ n ih =>
    rw [natDigits]
    split
    · next h =>
      intro c hc
      rw [List.mem_singleton] at hc
      subst hc
      exact digitChar_isDigit n h
    · next h =>
      intro c hc
      rcases List.mem_append.1 hc with h1 | h2
      · exact ih (n / 10) (Nat.div_lt_self (by omega) (by norm_num)) c h1
      · rw [List.mem_singleton] at h2
        subst h2
        exact digitChar_isDigit _ (Nat.mod_lt _ (by norm_num))

theorem natDigits_ne_nil (n : Nat) : natDigits n ≠ [] := by
  rw [natDigits]; split <;> simp

/-! ## Computation lemmas for `from_str` on well-shaped inputs -/

theorem from_str_star (ds : List Char) (h0 : ds ≠ []) (h1 : ∀ c ∈ ds, c.isDigit)
    (h2 : digitsVal ds 0 < 2 ^ 64) :
    from_str (bytesLit ++ '*' :: '/' :: ds) = .ok ⟨none, none, some (digitsVal ds 0)⟩ := by
  have hp : stripPre bytesLit (bytesLit ++ '*' :: '/' :: ds) = some ('*' :: '/' :: ds) :=
    stripPre_append _ _
  have hss : stripPre starSlash ('*' :: '/' :: ds) = some ds := stripPre_append starSlash ds
  simp only [from_str, hp, hss, parseU64_digits ds h0 h1 h2]
  rfl

theorem from_str_dash (ds1 ds2 p1 : List Char)
    (h10 : ds1 ≠ []) (h11 : ∀ c ∈ ds1, c.isDigit) (h12 : digitsVal ds1 0 < 2 ^ 64)
    (h20 : ds2 ≠ []) (h21 : ∀ c ∈ ds2, c.isDigit) (h22 : digitsVal ds2 0 < 2 ^ 64)
    (hp1 : '/' ∉ p1) :
    from_str (bytesLit ++ (ds1 ++ ('-' :: (ds2 ++ ('/' :: p1))))) =
      if p1 = ['*'] then
        .ok (BytesContentRange.default.with_range (digitsVal ds1 0) (digitsVal ds2 0))
      else
        match parseU64 p1 with
        | none =>
          .error (contentRangeParseIntError (bytesLit ++ (ds1 ++ ('-' :: (ds2 ++ ('/' :: p1))))))
        | some sz =>
          .ok ((BytesContentRange.default.with_range (digitsVal ds1 0)
            (digitsVal ds2 0)).with_size sz) := by
  have hp : stripPre bytesLit (bytesLit ++ (ds1 ++ ('-' :: (ds2 ++ ('/' :: p1))))) =
      some (ds1 ++ ('-' :: (ds2 ++ ('/' :: p1)))) := stripPre_append _ _
  have hns1 : '/' ∉ ds1 := not_mem_of_digits ds1 h11 '/' (by decide)
  have hns2 : '/' ∉ ds2 := not_mem_of_digits ds2 h21 '/' (by decide)
  have hnd1 : '-' ∉ ds1 := not_mem_of_digits ds1 h11 '-' (by decide)
  have hnd2 : '-' ∉ ds2 := not_mem_of_digits ds2 h21 '-' (by decide)
  have hsplit : splitList '/' (ds1 ++ ('-' :: (ds2 ++ ('/' :: p1)))) =
      [ds1 ++ ('-' :: ds2), p1] := by
    have hassoc : ds1 ++ ('-' :: (ds2 ++ ('/' :: p1))) =
        (ds1 ++ ('-' :: ds2)) ++ ('/' :: p1) := by
      simp
    rw [hassoc]
    have hni : '/' ∉ ds1 ++ ('-' :: ds2) := by
      intro hm
      rcases List.mem_append.1 hm with hm1 | hm2
      · exact hns1 hm1
      · rcases List.mem_cons.1 hm2 with hm3 | hm4
        · cases hm3
        · exact hns2 hm4
    rw [splitList_append '/' _ _ hni, splitList_not_mem '/' p1 hp1]
  have hdash : splitList '-' (ds1 ++ ('-' :: ds2)) = [ds1, ds2] := by
    rw [splitList_append '-' _ _ hnd1, splitList_not_mem '-' ds2 hnd2]
  have hstar : stripPre starSlash (ds1 ++ ('-' :: (ds2 ++ ('/' :: p1)))) = none := by
    cases ds1 with
    | nil => exact absurd rfl h10
    | cons c t =>
      have hc : c.isDigit := h11 c (List.mem_cons_self _ _)
      have : ¬c = '*' := (isDigit_not_special c hc).1
      rw [List.cons_append]
      exact stripPre_cons_ne '*' c _ _ this
  simp only [from_str, hp, hstar, hsplit, hdash, parseU64_digits ds1 h10 h11 h12,
    parseU64_digits ds2 h20 h21 h22]

theorem from_str_range_star (ds1 ds2 : List Char)
    (h10 : ds1 ≠ []) (h11 : ∀ c ∈ ds1, c.isDigit) (h12 : digitsVal ds1 0 < 2 ^ 64)
    (h20 : ds2 ≠ []) (h21 : ∀ c ∈ ds2, c.isDigit) (h22 : digitsVal ds2 0 < 2 ^ 64) :
    from_str (bytesLit ++ (ds1 ++ ('-' :: (ds2 ++ ['/', '*'])))) =
      .ok ⟨some (digitsVal ds1 0), some (digitsVal ds2 0), none⟩ := by
  have h := from_str_dash ds1 ds2 ['*'] h10 h11 h12 h20 h21 h22 (by decide)
  rw [if_pos rfl] at h
  exact h

theorem from_str_range_size (ds1 ds2 ds3 : List Char)
    (h10 : ds1 ≠ []) (h11 : ∀ c ∈ ds1, c.isDigit) (h12 : digitsVal ds1 0 < 2 ^ 64)
    (h20 : ds2 ≠ []) (h21 : ∀ c ∈ ds2, c.isDigit) (h22 : digitsVal ds2 0 < 2 ^ 64)
    (h30 : ds3 ≠ []) (h31 : ∀ c ∈ ds3, c.isDigit) (h32 : digitsVal ds3 0 < 2 ^ 64) :
    from_str (bytesLit ++ (ds1 ++ ('-' :: (ds2 ++ ('/' :: ds3))))) =
      .ok ⟨some (digitsVal ds1 0), some (digitsVal ds2 0), some (digitsVal ds3 0)⟩ := by
  have hne : ¬ds3 = ['*'] := by
    intro heq
    have : ('*' : Char).isDigit := h31 '*' (by rw [heq]; exact List.mem_cons_self _ _)
    exact absurd this (by decide)
  have hnm : '/' ∉ ds3 := not_mem_of_digits ds3 h31 '/' (by decide)
  have h := from_str_dash ds1 ds2 ds3 h10 h11 h12 h20 h21 h22 hnm
  rw [if_neg hne, parseU64_digits ds3 h30 h31 h32] at h
  exact h

/-! ## The claims -/

/-- C1: `from_bytes_range(total_size, range)` follows the four-case table —
(offset known, size known) gives `start = offset`, `end = offset + size - 1`;
(offset known, size unknown) gives `start = offset`, `end = total_size - 1`;
(offset unknown, size known) gives `start = total_size - size`,
`end = total_size - 1`; (both unknown) gives `start = 0`,
`end = total_size - 1` — and the result always carries
`total_size = total_size`. Stated under the spec's §4.1 precondition (a
positive, `u64`-representable `total_size`, an explicit size within it, and a
nonzero `offset + size`), where the source's `u64` arithmetic agrees with the
table's exact arithmetic; the `total_size` conjunct holds unconditionally. -/
theorem c1_from_bytes_range_table (t : Nat) (r : BytesRange)
    (ht0 : 0 < t) (ht : t < 2 ^ 64) :
    (BytesContentRange.from_bytes_range t r).totalSize = some t
    ∧ (∀ o s, r.offset = some o → r.size = some s → 0 < o + s → o + s ≤ 2 ^ 64 →
        BytesContentRange.from_bytes_range t r = ⟨some o, some (o + s - 1), some t⟩)
    ∧ (∀ o, r.offset = some o → r.size = none →
        BytesContentRange.from_bytes_range t r = ⟨some o, some (t - 1), some t⟩)
    ∧ (∀ s, r.offset = none → r.size = some s → s ≤ t →
        BytesContentRange.from_bytes_range t r = ⟨some (t - s), some (t - 1), some t⟩)
    ∧ (r.offset = none → r.size = none →
        BytesContentRange.from_bytes_range t r = ⟨some 0, some (t - 1), some t⟩) := by
  obtain ⟨ro, rs⟩ := r
  have h64 : (2 : Nat) ^ 64 = 18446744073709551616 := by norm_num
  refine ⟨?_, ?_, ?_, ?_, ?_⟩
  · cases ro <;> cases rs <;> rfl
  · rintro o s rfl rfl h1 h2
    simp only [BytesContentRange.from_bytes_range, u64add, u64sub,
      BytesContentRange.mk.injEq, Option.some.injEq, h64, true_and, and_true]
    omega
  · rintro o rfl rfl
    simp only [BytesContentRange.from_bytes_range, u64sub,
      BytesContentRange.mk.injEq, Option.some.injEq, h64, true_and, and_true]
    omega
  · rintro s rfl rfl hs
    simp only [BytesContentRange.from_bytes_range, u64sub,
      BytesContentRange.mk.injEq, Option.some.injEq, h64, true_and, and_true]
    omega
  · rintro rfl rfl
    simp only [BytesContentRange.from_bytes_range, u64sub,
      BytesContentRange.mk.injEq, Option.some.injEq, h64, true_and, and_true]
    omega

/-- Witness for C1 at the source's own test vectors. -/
theorem c1_witness :
    BytesContentRange.from_bytes_range 2048 ⟨some 1024, none⟩ =
      ⟨some 1024, some 2047, some 2048⟩ ∧
    BytesContentRange.from_bytes_range 4096 ⟨some 1024, some 1⟩ =
      ⟨some 1024, some 1024, some 4096⟩ :=
  ⟨(c1_from_bytes_range_table 2048 ⟨some 1024, none⟩ (by norm_num)
      (by norm_num)).2.2.1 1024 rfl rfl,
   (c1_from_bytes_range_table 4096 ⟨some 1024, some 1⟩ (by norm_num)
      (by norm_num)).2.1 1024 1 rfl rfl (by norm_num) (by norm_num)⟩

/-- C6 counterexample: `from_bytes_range` contains no explicit underflow
guard; at the precondition-violating input `total_size = 0` with an
all-unknown range, `total_size - 1` silently wraps to `2^64 - 1` (release
semantics) instead of being caught by a defect check. -/
theorem c6_counterexample :
    BytesContentRange.from_bytes_range 0 ⟨none, none⟩ =
      ⟨some 0, some (2 ^ 64 - 1), some 0⟩ := by
  simp only [BytesContentRange.from_bytes_range, u64sub]
  norm_num

/-- C6 amended: `from_bytes_range` performs unchecked `u64` arithmetic; for
inputs violating the §4.1 precondition the subtractions silently wrap modulo
2^64 in release builds (a debug build would abort on the same inputs via
Rust's implicit overflow checks): a size exceeding `total_size` yields the
wrapped start `2^64 - (size - total_size)`, and `total_size = 0` yields the
wrapped end `2^64 - 1`. -/
theorem c6_amended_unchecked_wrap (t s : Nat) (h1 : t < s) (h2 : s ≤ 2 ^ 64) :
    (BytesContentRange.from_bytes_range t ⟨none, some s⟩).start =
      some (2 ^ 64 - (s - t))
    ∧ ∀ r : BytesRange, r.offset = none → r.size = none →
        (BytesContentRange.from_bytes_range 0 r).endPos = some (2 ^ 64 - 1) := by
  have h64 : (2 : Nat) ^ 64 = 18446744073709551616 := by norm_num
  constructor
  · simp only [BytesContentRange.from_bytes_range, u64sub, Option.some.injEq, h64]
    rw [h64] at h2
    omega
  · rintro ⟨ro, rs⟩ rfl rfl
    simp only [BytesContentRange.from_bytes_range, u64sub, Option.some.injEq, h64]

/-- Witness for the amended C6 at `total_size = 1`, `size = 2`. -/
theorem c6_amended_witness :
    (BytesContentRange.from_bytes_range 1 ⟨none, some 2⟩).start =
      some (2 ^ 64 - 1)
    ∧ ∀ r : BytesRange, r.offset = none → r.size = none →
        (BytesContentRange.from_bytes_range 0 r).endPos = some (2 ^ 64 - 1) :=
  c6_amended_unchecked_wrap 1 2 (by norm_num) (by norm_num)

/-- C4 counterexample: `to_bytes_range` does not return an explicit result on
every input — the all-unknown default hits the `unreachable!` assertion arm
(modelled by the outer `none`), contradicting the claim that no input state
is treated as an unreachable assertion failure. -/
theorem c4_counterexample :
    BytesContentRange.to_bytes_range BytesContentRange.default = none := rfl

/-- C4 amended: `to_bytes_range` returns the equivalent `BytesRange` when
start and end are known and an explicit indeterminate `None` when the range
is unknown but the size is known; on every other state — the all-unknown
default or a half-known range — it aborts through the `unreachable!`
assertion (outer `none`). -/
theorem c4_amended_to_bytes_range (x : BytesContentRange) :
    (∀ s e, x.start = some s → x.endPos = some e →
      x.to_bytes_range = some (some ⟨some s, some (u64add (u64sub e s) 1)⟩))
    ∧ (∀ t, x.start = none → x.endPos = none → x.totalSize = some t →
      x.to_bytes_range = some none)
    ∧ (x.start = none → x.endPos = none → x.totalSize = none →
      x.to_bytes_range = none)
    ∧ (∀ e, x.start = none → x.endPos = some e → x.to_bytes_range = none)
    ∧ (∀ s, x.start = some s → x.endPos = none → x.to_bytes_range = none) := by
  obtain ⟨os, oe, ot⟩ := x
  refine ⟨?_, ?_, ?_, ?_, ?_⟩
  · rintro s e rfl rfl
    rfl
  · rintro t rfl rfl rfl
    rfl
  · rintro rfl rfl rfl
    rfl
  · rintro e rfl rfl
    cases ot <;> rfl
  · rintro s rfl rfl
    cases ot <;> rfl

/-- Witness for the amended C4 on a known range and on the size-only state. -/
theorem c4_amended_witness :
    BytesContentRange.to_bytes_range ⟨some 1, some 3, none⟩ =
      some (some ⟨some 1, some (u64add (u64sub 3 1) 1)⟩)
    ∧ BytesContentRange.to_bytes_range ⟨none, none, some 7⟩ = some none :=
  ⟨(c4_amended_to_bytes_range ⟨some 1, some 3, none⟩).1 1 3 rfl rfl,
   (c4_amended_to_bytes_range ⟨none, none, some 7⟩).2.1 7 rfl rfl rfl⟩

/-- C2: both classifiers produce the table's (kind, retryable) pair for every
status and every body (the body and both external decoders are universally
quantified, so the pair cannot depend on them): 404 gives ObjectNotFound
non-retryable; 403 gives ObjectPermissionDenied non-retryable; 500, 502, 503,
504 give Unexpected retryable; 520 gives Unexpected retryable in the OBS
classifier; every other status gives Unexpected non-retryable. -/
theorem c2_classifier_table
    (d1 d2 : List Nat → Option String) (l1 l2 : List Nat → String)
    (r1 r2 : String) (status : Nat) (body : List Nat) :
    (status = 404 →
      (gcs_parse_error d1 l1 r1 status body).kind = .ObjectNotFound ∧
      (gcs_parse_error d1 l1 r1 status body).retryable = false ∧
      (obs_parse_error d2 l2 r2 status body).kind = .ObjectNotFound ∧
      (obs_parse_error d2 l2 r2 status body).retryable = false)
    ∧ (status = 403 →
      (gcs_parse_error d1 l1 r1 status body).kind = .ObjectPermissionDenied ∧
      (gcs_parse_error d1 l1 r1 status body).retryable = false ∧
      (obs_parse_error d2 l2 r2 status body).kind = .ObjectPermissionDenied ∧
      (obs_parse_error d2 l2 r2 status body).retryable = false)
    ∧ (status = 500 ∨ status = 502 ∨ status = 503 ∨ status = 504 →
      (gcs_parse_error d1 l1 r1 status body).kind = .Unexpected ∧
      (gcs_parse_error d1 l1 r1 status body).retryable = true ∧
      (obs_parse_error d2 l2 r2 status body).kind = .Unexpected ∧
      (obs_parse_error d2 l2 r2 status body).retryable = true)
    ∧ ((obs_parse_error d2 l2 r2 520 body).kind = .Unexpected ∧
      (obs_parse_error d2 l2 r2 520 body).retryable = true)
    ∧ (status ≠ 404 → status ≠ 403 → status ≠ 500 → status ≠ 502 →
      status ≠ 503 → status ≠ 504 →
      (gcs_parse_error d1 l1 r1 status body).kind = .Unexpected ∧
      (gcs_parse_error d1 l1 r1 status body).retryable = false)
    ∧ (status ≠ 404 → status ≠ 403 → status ≠ 500 → status ≠ 502 →
      status ≠ 503 → status ≠ 504 → status ≠ 520 →
      (obs_parse_error d2 l2 r2 status body).kind = .Unexpected ∧
      (obs_parse_error d2 l2 r2 status body).retryable = false) := by
  refine ⟨?_, ?_, ?_, ?_, ?_, ?_⟩
  · rintro rfl
    refine ⟨?_, ?_, ?_, ?_⟩ <;> simp [gcs_parse_error, obs_parse_error]
  · rintro rfl
    refine ⟨?_, ?_, ?_, ?_⟩ <;> simp [gcs_parse_error, obs_parse_error]
  · rintro (rfl | rfl | rfl | rfl) <;>
      (refine ⟨?_, ?_, ?_, ?_⟩ <;> simp [gcs_parse_error, obs_parse_error])
  · constructor <;> simp [obs_parse_error]
  · intro h404 h403 h500 h502 h503 h504
    constructor <;> simp [gcs_parse_error, h404, h403, h500, h502, h503, h504]
  · intro h404 h403 h500 h502 h503 h504 h520
    constructor <;> simp [obs_parse_error, h404, h403, h500, h502, h503, h504, h520]

/-- Witness for C2 at status 404 (both classifiers) and at the OBS-specific
status 520, with trivial decoders and an empty body. -/
theorem c2_witness :
    ((gcs_parse_error (fun _ => none) (fun _ => "") "" 404 []).kind =
       ErrorKind.ObjectNotFound ∧
     (gcs_parse_error (fun _ => none) (fun _ => "") "" 404 []).retryable = false ∧
     (obs_parse_error (fun _ => none) (fun _ => "") "" 404 []).kind =
       ErrorKind.ObjectNotFound ∧
     (obs_parse_error (fun _ => none) (fun _ => "") "" 404 []).retryable = false)
    ∧ ((obs_parse_error (fun _ => none) (fun _ => "") "" 520 []).kind =
       ErrorKind.Unexpected ∧
     (obs_parse_error (fun _ => none) (fun _ => "") "" 520 []).retryable = true) :=
  ⟨(c2_classifier_table (fun _ => none) (fun _ => none) (fun _ => "") (fun _ => "")
      "" "" 404 []).1 rfl,
   (c2_classifier_table (fun _ => none) (fun _ => none) (fun _ => "") (fun _ => "")
      "" "" 404 []).2.2.2.1⟩

/-- C7: whenever the structured decoder fails on the body, the message of the
error produced by either classifier is exactly the lossy UTF-8 decoding of
the raw body bytes (`l1`/`l2` stand for `String::from_utf8_lossy`, `d1`/`d2`
for the structured schema decoders); message construction is total, so it
cannot itself fail. -/
theorem c7_lossy_fallback
    (d1 d2 : List Nat → Option String) (l1 l2 : List Nat → String)
    (r1 r2 : String) (status : Nat) (body : List Nat)
    (h1 : d1 body = none) (h2 : d2 body = none) :
    (gcs_parse_error d1 l1 r1 status body).message = l1 body ∧
    (obs_parse_error d2 l2 r2 status body).message = l2 body := by
  constructor
  · simp only [gcs_parse_error, h1, apply_ite ErrorRecord.message,
      ErrorRecord.set_temporary_message, ErrorRecord.with_context_message,
      ErrorRecord.new_message, ite_self]
  · simp only [obs_parse_error, h2, apply_ite ErrorRecord.message,
      ErrorRecord.set_temporary_message, ErrorRecord.with_context_message,
      ErrorRecord.new_message, ite_self]

/-- Witness for C7 with an always-failing decoder on a nonempty body. -/
theorem c7_witness :
    (gcs_parse_error (fun _ => none) (fun _ => "fallback") "" 200 [255]).message =
      "fallback" ∧
    (obs_parse_error (fun _ => none) (fun _ => "fallback") "" 200 [255]).message =
      "fallback" :=
  c7_lossy_fallback (fun _ => none) (fun _ => none) (fun _ => "fallback")
    (fun _ => "fallback") "" "" 200 [255] rfl rfl

/-- C5: every failing run of `from_str` — in particular on inputs missing the
`"bytes "` prefix, with a `/`- or `-`-segment count other than 2, or with a
non-numeric field — produces an error of kind Unexpected, not retryable,
whose context carries the original input string under the key `"value"`. -/
theorem c5_parse_error_shape (value : List Char) (e : ErrorRecord)
    (h : from_str value = .error e) :
    e.kind = ErrorKind.Unexpected ∧ e.retryable = false ∧
      ("value", String.mk value) ∈ e.context := by
  have hInv : (contentRangeInvalid value).kind = ErrorKind.Unexpected ∧
      (contentRangeInvalid value).retryable = false ∧
      ("value", String.mk value) ∈ (contentRangeInvalid value).context := by
    refine ⟨rfl, rfl, ?_⟩
    simp [contentRangeInvalid]
  unfold from_str at h
  repeat' split at h
  all_goals
    cases h
  all_goals
    exact hInv

/-- Witness for C5 on the input `"x"`, which lacks the `"bytes "` prefix. -/
theorem c5_witness :
    (contentRangeInvalid ['x']).kind = ErrorKind.Unexpected ∧
    (contentRangeInvalid ['x']).retryable = false ∧
    ("value", String.mk ['x']) ∈ (contentRangeInvalid ['x']).context :=
  c5_parse_error_shape ['x'] (contentRangeInvalid ['x']) rfl

/-- C9: every `BytesContentRange` producible through the public operations
has `start` present iff `end` is present: the default has neither,
`with_range` sets both, `with_size` preserves the property,
`from_bytes_range` always sets both, and every successful `from_str` result
satisfies it. -/
theorem c9_range_invariant :
    (BytesContentRange.default.start.isSome ↔ BytesContentRange.default.endPos.isSome)
    ∧ (∀ (x : BytesContentRange) (s e : Nat),
        ((x.with_range s e).start.isSome ↔ (x.with_range s e).endPos.isSome))
    ∧ (∀ (x : BytesContentRange) (n : Nat), (x.start.isSome ↔ x.endPos.isSome) →
        ((x.with_size n).start.isSome ↔ (x.with_size n).endPos.isSome))
    ∧ (∀ (t : Nat) (r : BytesRange),
        ((BytesContentRange.from_bytes_range t r).start.isSome ↔
          (BytesContentRange.from_bytes_range t r).endPos.isSome))
    ∧ (∀ (v : List Char) (x : BytesContentRange), from_str v = .ok x →
        (x.start.isSome ↔ x.endPos.isSome)) := by
  refine ⟨Iff.rfl, ?_, ?_, ?_, ?_⟩
  · intro x s e
    simp [BytesContentRange.with_range]
  · intro x n h
    simpa [BytesContentRange.with_size] using h
  · intro t r
    obtain ⟨ro, rs⟩ := r
    cases ro <;> cases rs <;> simp [BytesContentRange.from_bytes_range]
  · intro v x h
    unfold from_str at h
    repeat' split at h
    all_goals
      cases h
    all_goals
      simp [BytesContentRange.default, BytesContentRange.with_size,
        BytesContentRange.with_range]

/-- Witness for C9's `with_size` preservation at the default instance. -/
theorem c9_witness :
    (BytesContentRange.default.with_size 7).start.isSome ↔
      (BytesContentRange.default.with_size 7).endPos.isSome :=
  c9_range_invariant.2.2.1 BytesContentRange.default 7 Iff.rfl

/-- C3: `from_str` follows the grammar — for every unsigned-decimal-digit
string SIZE (value in `u64` range), `"bytes */SIZE"` parses to size known and
range unknown; for all digit strings START, END, SIZE,
`"bytes START-END/SIZE"` parses to range [START, END] with that size; and
`"bytes START-END/*"` parses to range [START, END] with size unknown. -/
theorem c3_parse_grammar :
    (∀ ds : List Char, ds ≠ [] → (∀ c ∈ ds, c.isDigit) → digitsVal ds 0 < 2 ^ 64 →
      from_str (bytesLit ++ '*' :: '/' :: ds) =
        .ok ⟨none, none, some (digitsVal ds 0)⟩)
    ∧ (∀ ds1 ds2 ds3 : List Char,
        ds1 ≠ [] → (∀ c ∈ ds1, c.isDigit) → digitsVal ds1 0 < 2 ^ 64 →
        ds2 ≠ [] → (∀ c ∈ ds2, c.isDigit) → digitsVal ds2 0 < 2 ^ 64 →
        ds3 ≠ [] → (∀ c ∈ ds3, c.isDigit) → digitsVal ds3 0 < 2 ^ 64 →
        from_str (bytesLit ++ (ds1 ++ ('-' :: (ds2 ++ ('/' :: ds3))))) =
          .ok ⟨some (digitsVal ds1 0), some (digitsVal ds2 0),
            some (digitsVal ds3 0)⟩)
    ∧ (∀ ds1 ds2 : List Char,
        ds1 ≠ [] → (∀ c ∈ ds1, c.isDigit) → digitsVal ds1 0 < 2 ^ 64 →
        ds2 ≠ [] → (∀ c ∈ ds2, c.isDigit) → digitsVal ds2 0 < 2 ^ 64 →
        from_str (bytesLit ++ (ds1 ++ ('-' :: (ds2 ++ ['/', '*'])))) =
          .ok ⟨some (digitsVal ds1 0), some (digitsVal ds2 0), none⟩) := by
  refine ⟨from_str_star, ?_, ?_⟩
  · intro ds1 ds2 ds3 h10 h11 h12 h20 h21 h22 h30 h31 h32
    exact from_str_range_size ds1 ds2 ds3 h10 h11 h12 h20 h21 h22 h30 h31 h32
  · intro ds1 ds2 h10 h11 h12 h20 h21 h22
    exact from_str_range_star ds1 ds2 h10 h11 h12 h20 h21 h22

/-- Witness for C3 at the spec's example `"bytes 123-123/*"` together with
the size-only form `"bytes */1024"`. -/
theorem c3_witness :
    from_str (bytesLit ++ '*' :: '/' :: ['1', '0', '2', '4']) =
      .ok ⟨none, none, some (digitsVal ['1', '0', '2', '4'] 0)⟩
    ∧ from_str (bytesLit ++ (['1', '2', '3'] ++ ('-' :: (['1', '2', '3'] ++ ['/', '*'])))) =
      .ok ⟨some (digitsVal ['1', '2', '3'] 0), some (digitsVal ['1', '2', '3'] 0), none⟩ :=
  ⟨c3_parse_grammar.1 ['1', '0', '2', '4'] (by simp) (by decide) (by decide),
   c3_parse_grammar.2.2 ['1', '2', '3'] ['1', '2', '3'] (by simp) (by decide) (by decide)
     (by simp) (by decide) (by decide)⟩

/-- C10: the parser performs no semantic validation of the numeric fields —
for all `u64` values a, b (including a > b) and every size c,
`"bytes a-b/*"` and `"bytes a-b/c"` parse successfully into start = a,
end = b, and `len()` on such a value computes `end - start + 1` in `u64`
arithmetic unconditionally, with no start ≤ end or end < total_size check. -/
theorem c10_no_semantic_validation (a b c : Nat)
    (ha : a < 2 ^ 64) (hb : b < 2 ^ 64) (hc : c < 2 ^ 64) :
    from_str (bytesLit ++ (natDigits a ++ ('-' :: (natDigits b ++ ['/', '*'])))) =
      .ok ⟨some a, some b, none⟩
    ∧ from_str (bytesLit ++ (natDigits a ++ ('-' :: (natDigits b ++ ('/' :: natDigits c))))) =
      .ok ⟨some a, some b, some c⟩
    ∧ ∀ ts : Option Nat,
        BytesContentRange.len ⟨some a, some b, ts⟩ = some (u64add (u64sub b a) 1) := by
  refine ⟨?_, ?_, ?_⟩
  · have h := from_str_range_star (natDigits a) (natDigits b)
      (natDigits_ne_nil a) (natDigits_digits a) (by rw [natDigits_val]; exact ha)
      (natDigits_ne_nil b) (natDigits_digits b) (by rw [natDigits_val]; exact hb)
    rwa [natDigits_val, natDigits_val] at h
  · have h := from_str_range_size (natDigits a) (natDigits b) (natDigits c)
      (natDigits_ne_nil a) (natDigits_digits a) (by rw [natDigits_val]; exact ha)
      (natDigits_ne_nil b) (natDigits_digits b) (by rw [natDigits_val]; exact hb)
      (natDigits_ne_nil c) (natDigits_digits c) (by rw [natDigits_val]; exact hc)
    rwa [natDigits_val, natDigits_val, natDigits_val] at h
  · intro ts
    rfl

/-- Witness for C10 at the inverted range a = 5, b = 3 with c = 1 ≤ b. -/
theorem c10_witness :
    from_str (bytesLit ++ (natDigits 5 ++ ('-' :: (natDigits 3 ++ ['/', '*'])))) =
      .ok ⟨some 5, some 3, none⟩
    ∧ from_str (bytesLit ++ (natDigits 5 ++ ('-' :: (natDigits 3 ++ ('/' :: natDigits 1))))) =
      .ok ⟨some 5, some 3, some 1⟩
    ∧ ∀ ts : Option Nat,
        BytesContentRange.len ⟨some 5, some 3, ts⟩ = some (u64add (u64sub 3 5) 1) :=
  c10_no_semantic_validation 5 3 1 (by norm_num) (by norm_num) (by norm_num)

/-- C8: round trip — for every valid `BytesContentRange` (a known closed
range with or without size, or a size-only value) whose fields are `u64`
values, parsing the Content-Range string rendered per the §4.1 grammar
returns exactly the original value. -/
theorem c8_round_trip (x : BytesContentRange)
    (hvalid : (x.start.isSome ∧ x.endPos.isSome) ∨
      (x.start = none ∧ x.endPos = none ∧ x.totalSize.isSome))
    (hs : ∀ n, x.start = some n → n < 2 ^ 64)
    (he : ∀ n, x.endPos = some n → n < 2 ^ 64)
    (ht : ∀ n, x.totalSize = some n → n < 2 ^ 64) :
    from_str (render x) = .ok x := by
  obtain ⟨os, oe, ot⟩ := x
  rcases hvalid with ⟨h1, h2⟩ | ⟨h1, h2, h3⟩
  · obtain ⟨s, rfl⟩ := Option.isSome_iff_exists.1 h1
    obtain ⟨e, rfl⟩ := Option.isSome_iff_exists.1 h2
    cases ot with
    | none =>
      have h := from_str_range_star (natDigits s) (natDigits e)
        (natDigits_ne_nil s) (natDigits_digits s) (by rw [natDigits_val]; exact hs s rfl)
        (natDigits_ne_nil e) (natDigits_digits e) (by rw [natDigits_val]; exact he e rfl)
      rw [natDigits_val, natDigits_val] at h
      exact h
    | some t =>
      have h := from_str_range_size (natDigits s) (natDigits e) (natDigits t)
        (natDigits_ne_nil s) (natDigits_digits s) (by rw [natDigits_val]; exact hs s rfl)
        (natDigits_ne_nil e) (natDigits_digits e) (by rw [natDigits_val]; exact he e rfl)
        (natDigits_ne_nil t) (natDigits_digits t) (by rw [natDigits_val]; exact ht t rfl)
      rw [natDigits_val, natDigits_val, natDigits_val] at h
      exact h
  · subst h1
    subst h2
    obtain ⟨t, rfl⟩ := Option.isSome_iff_exists.1 h3
    have h := from_str_star (natDigits t) (natDigits_ne_nil t) (natDigits_digits t)
      (by rw [natDigits_val]; exact ht t rfl)
    rw [natDigits_val] at h
    exact h

/-- Witness for C8 at the value rendered as `"bytes 123-123/*"`. -/
theorem c8_witness :
    from_str (render ⟨some 123, some 123, none⟩) = .ok ⟨some 123, some 123, none⟩ :=
  c8_round_trip ⟨some 123, some 123, none⟩ (Or.inl ⟨rfl, rfl⟩)
    (fun n h => by injection h with h; subst h; norm_num)
    (fun n h => by injection h with h; subst h; norm_num)
    (fun n h => by cases h)

end Opendal
